import Mathlib

/-!
# A verification development for the forestutils height-field engine

This file gives a shallow embedding, in Lean 4, of the core of
`forestutils.py`: the grid quantizer, the height field built by streaming
ingestion, the iterative ground smoother, the multi-scale connected-component
tree segmenter, the colour-accumulation second pass, and the per-tree
aggregator.  Python dictionaries are modelled as association lists with
Python's insertion-order semantics (updating an existing key keeps its
position, a new key is appended); Python floats are modelled as rationals;
Python `set`s of values are modelled as deduplicated lists (only membership,
cardinality and minima of these sets are ever used).  Fallible dictionary
accesses (`d[k]`, which raises `KeyError` in Python) are modelled with
`Option`.  The CPython recursion limit that bounds the depth-first label
propagation is modelled as explicit fuel.
-/

set_option maxRecDepth 20000

attribute [local semireducible] Rat.add Rat.sub Rat.mul Rat.inv

/-- Integer cell key, mirroring `XY_Coord` in the source. -/
structure XY_Coord where
  x : ℤ
  y : ℤ
deriving DecidableEq, Repr

/-- A streamed point: position plus the named non-positional attributes
(the source treats every vertex attribute not named `x`, `y`, `z` as a
colour channel). -/
structure Point where
  x : ℚ
  y : ℚ
  z : ℚ
  attrs : List (String × ℚ)
deriving DecidableEq, Repr

/-- The recognized configuration options used by the engine
(`args.cellsize`, `args.slicedepth`, `args.grounddepth`,
`args.joinedcells`; the latter is parsed as a float in the source). -/
structure Config where
  cellsize : ℚ
  slicedepth : ℚ
  grounddepth : ℚ
  joinedcells : ℚ
deriving Repr

/-- Association-list lookup: the model of Python's `d.get(k)` / `k in d`. -/
def alookup {κ α : Type} [DecidableEq κ] : List (κ × α) → κ → Option α
  | [], _ => none
  | e :: rest, k => if e.1 = k then some e.2 else alookup rest k

/-- Association-list store: the model of Python's `d[k] = v`.  Updating an
existing key keeps its position; a new key is appended at the end, mirroring
Python-dict insertion-order iteration. -/
def aset {κ α : Type} [DecidableEq κ] : List (κ × α) → κ → α → List (κ × α)
  | [], k, v => [(k, v)]
  | e :: rest, k, v => if e.1 = k then (k, v) :: rest else e :: aset rest k v

/-- Python's `min` over a finite iterable, `none` on an empty one. -/
def listMin : List ℚ → Option ℚ
  | [] => none
  | q :: rest =>
    match listMin rest with
    | none => some q
    | some m => some (min q m)

/-- `coords(pos)`: quantize a planar position to an integer cell key with
`floor(coordinate / cellsize)`. -/
def coords (cfg : Config) (p : Point) : XY_Coord :=
  ⟨Rat.floor (p.x / cfg.cellsize), Rat.floor (p.y / cfg.cellsize)⟩

/-- `neighbors(key)`: the eight Moore neighbors, in the source's generation
order (`for a in (-1, 0, 1) for b in (-1, 0, 1) if a or b`). -/
def neighbors (k : XY_Coord) : List XY_Coord :=
  [⟨k.x - 1, k.y - 1⟩, ⟨k.x - 1, k.y⟩, ⟨k.x - 1, k.y + 1⟩,
   ⟨k.x, k.y - 1⟩, ⟨k.x, k.y + 1⟩,
   ⟨k.x + 1, k.y - 1⟩, ⟨k.x + 1, k.y⟩, ⟨k.x + 1, k.y + 1⟩]

/-- The ground heights of the present neighbors of `k`, one per present
neighbor (with multiplicity). -/
def presentVals (gd : List (XY_Coord × ℚ)) (k : XY_Coord) : List ℚ :=
  (neighbors k).filterMap (alookup gd)

/-- The Python set `{ground_dict.get(n) for n in neighbors(k)}` with `None`
discarded: the distinct ground heights found among the present neighbors. -/
def adjacentVals (gd : List (XY_Coord × ℚ)) (k : XY_Coord) : List ℚ :=
  (presentVals gd k).dedup

/-- `detect_issues(ground_dict, prior)`: keep the candidates whose distinct
present-neighbor height set has at least 6 elements and contains at least 3
heights differing from the candidate's ground height by more than
`2 * cellsize`. -/
def detect_issues (cfg : Config) (gd : List (XY_Coord × ℚ)) (prior : List XY_Coord) :
    List XY_Coord :=
  prior.filter (fun k =>
    let adjacent := adjacentVals gd k
    if adjacent.length < 6 then false
    else
      match alookup gd k with
      | none => false  -- `ground_dict[k]` raises KeyError; callers pass keys of `gd`
      | some gk =>
        decide (3 ≤ (adjacent.filter (fun v => decide (2 * cfg.cellsize < |gk - v|))).length))

/-- One corrective update of `smooth_ground`'s inner loop: replace a
problematic key's ground height by `min` of its non-problematic present
neighbors plus `2 * cellsize` (skipped when that set is empty). -/
def smooth_update (cfg : Config) (prob : List XY_Coord)
    (gd : List (XY_Coord × ℚ)) (key : XY_Coord) : List (XY_Coord × ℚ) :=
  let adjacent := (((neighbors key).filter (fun n => decide (n ∉ prob))).filterMap
    (alookup gd)).dedup
  match listMin adjacent with
  | none => gd
  | some m => aset gd key (m + 2 * cfg.cellsize)

/-- The round structure of `smooth_ground`: each of the (at most 100) rounds
re-detects issues among the previous round's problematic set and applies the
corrective update to each flagged key in turn. -/
def smooth_loop (cfg : Config) : ℕ → List (XY_Coord × ℚ) → List XY_Coord →
    List (XY_Coord × ℚ)
  | 0, gd, _ => gd
  | n + 1, gd, prob =>
    let prob' := detect_issues cfg gd prob
    smooth_loop cfg n (prob'.foldl (smooth_update cfg prob') gd) prob'

/-- `smooth_ground(ground_dict)`: 100 rounds starting from the full key set. -/
def smooth_ground (cfg : Config) (gd : List (XY_Coord × ℚ)) : List (XY_Coord × ℚ) :=
  smooth_loop cfg 100 gd (gd.map (·.1))

/-- The neighbor loop of `expand(old_key, com)` from `connected_components`,
iterating over the (remaining) neighbor list of `old_key`.  Faithfully mirrors
the source: an *absent* neighbor `return`s from `expand` (abandoning the
remaining neighbors); a smaller neighbor label is adopted; a larger neighbor
label is overwritten, followed by recursion into that neighbor via `deeper`
(the one-level-deeper instance of `expand`).  The `false` flag signals a
`RuntimeError` (recursion-depth abort) propagating out, with all dictionary
mutations made so far retained. -/
def expand_neighbors
    (deeper : XY_Coord → List (XY_Coord × ℕ) → List (XY_Coord × ℕ) × Bool)
    (old_key : XY_Coord) :
    List (XY_Coord × ℕ) → List XY_Coord → List (XY_Coord × ℕ) × Bool
  | com, [] => (com, true)
  | com, key :: rest =>
    match alookup com key with
    | none => (com, true)
    | some ck =>
      match alookup com old_key with
      | none => (com, true)  -- `com[old_key]` raises; old_key is always a key of com
      | some col =>
        if ck = col then expand_neighbors deeper old_key com rest
        else if ck < col then expand_neighbors deeper old_key (aset com old_key ck) rest
        else
          match deeper key (aset com key col) with
          | (com', true) => expand_neighbors deeper old_key com' rest
          | (com', false) => (com', false)

/-- `expand(old_key, com)` with an explicit recursion-depth budget: calling
`expand` with no fuel left models the `RuntimeError` CPython raises at its
recursion limit (note the caller's `com[key] = com[old_key]` assignment has
already happened by then). -/
def expand : ℕ → XY_Coord → List (XY_Coord × ℕ) → List (XY_Coord × ℕ) × Bool
  | 0, _, com => (com, false)
  | fuel + 1, old_key, com => expand_neighbors (expand fuel) old_key com (neighbors old_key)

/-- The stand-in for CPython's default recursion limit. -/
def pyRecursionFuel : ℕ := 1000

/-- `connected_components(input_dict)`: one pass over a snapshot of the keys,
calling `expand` on each; a recursion-depth abort is caught and the loop
simply continues with the next key (the label map keeps the partial
mutations). -/
def connected_components (d : List (XY_Coord × ℕ)) : List (XY_Coord × ℕ) :=
  (d.map (·.1)).foldl (fun com key => (expand pyRecursionFuel key com).1) d

/-- The mutable state of a `MapObj`: one insertion-ordered map per attribute. -/
structure MapState where
  canopy : List (XY_Coord × ℚ)
  density : List (XY_Coord × ℕ)
  filtered_density : List (XY_Coord × ℕ)
  ground : List (XY_Coord × ℚ)
  colours : List (XY_Coord × List (String × ℚ))
  trees : List (XY_Coord × ℕ)
deriving Repr

/-- The fresh state built by `MapObj.__init__` before any point is read. -/
def emptyMap : MapState := ⟨[], [], [], [], [], []⟩

/-- One iteration of the ingestion loop in `update_spatial`: initialize all
four per-cell aggregates on first sight of a cell, otherwise bump the raw
density and update the ground minimum or (`elif`) the canopy maximum. -/
def ingest_step (cfg : Config) (st : MapState) (p : Point) : MapState :=
  let idx := coords cfg p
  match alookup st.density idx with
  | none =>
    { st with density := aset st.density idx 1,
              canopy := aset st.canopy idx p.z,
              ground := aset st.ground idx p.z,
              filtered_density := aset st.filtered_density idx 1 }
  | some d =>
    let st := { st with density := aset st.density idx (d + 1) }
    match alookup st.ground idx, alookup st.canopy idx with
    | some g, some c =>
      if g > p.z then { st with ground := aset st.ground idx p.z }
      else if c < p.z then { st with canopy := aset st.canopy idx p.z }
      else st
    | _, _ => st  -- unreachable: ground/canopy always share density's key set
/-- The ingestion loop of pass 1 (the `for p in read(...)` loop of
`update_spatial`, before smoothing and segmentation). -/
def ingest (cfg : Config) (pts : List Point) : MapState :=
  pts.foldl (ingest_step cfg) emptyMap

/-- `is_ground` evaluated against a given ground map: the point lies within
`grounddepth` of its cell's stored ground height. -/
def is_groundG (cfg : Config) (gmap : List (XY_Coord × ℚ)) (p : Point) : Bool :=
  match alookup gmap (coords cfg p) with
  | some g => decide (p.z - g < cfg.grounddepth)
  | none => false  -- `self.ground[...]` raises; every streamed point was ingested

/-- `MapObj.is_ground(point)`. -/
def is_ground (cfg : Config) (st : MapState) (p : Point) : Bool :=
  is_groundG cfg st.ground p

/-- `MapObj.is_lowest(point)`: exact equality with the stored ground height. -/
def is_lowest (cfg : Config) (st : MapState) (p : Point) : Bool :=
  match alookup st.ground (coords cfg p) with
  | some g => decide (p.z = g)
  | none => false

/-- Merge a point's attribute values into a cell's accumulated totals
(`self.colours[idx][k] += v`).  Point schemas are uniform within one file, so
the looked-up name is present whenever the cell entry was created from an
earlier point; the absent case (a `KeyError` in Python) accumulates from 0. -/
def addCols (stored : List (String × ℚ)) (pcols : List (String × ℚ)) :
    List (String × ℚ) :=
  pcols.foldl (fun acc nv =>
    match alookup acc nv.1 with
    | some old => aset acc nv.1 (old + nv.2)
    | none => aset acc nv.1 nv.2) stored

/-- One iteration of the `update_colours` loop: skip ground-classified
points; otherwise bump the cell's filtered density and accumulate the
non-positional attributes. -/
def colours_step (cfg : Config) (st : MapState) (p : Point) : MapState :=
  if is_ground cfg st p then st
  else
    let idx := coords cfg p
    match alookup st.filtered_density idx with
    | none => st  -- `self.filtered_density[idx]` raises; unreachable for ingested streams
    | some f =>
      match alookup st.colours idx with
      | none =>
        { st with filtered_density := aset st.filtered_density idx (f + 1),
                  colours := aset st.colours idx p.attrs }
      | some stored =>
        { st with filtered_density := aset st.filtered_density idx (f + 1),
                  colours := aset st.colours idx (addCols stored p.attrs) }

/-- `MapObj.update_colours`, streaming the given point list (pass 2). -/
def update_colours (cfg : Config) (st : MapState) (pts : List Point) : MapState :=
  pts.foldl (colours_step cfg) st

/-- Re-keying of a fine cell into the coarse join grid
(`floor(key.x / joinedcells)` per axis). -/
def coarse (cfg : Config) (k : XY_Coord) : XY_Coord :=
  ⟨Rat.floor ((k.x : ℚ) / cfg.joinedcells), Rat.floor ((k.y : ℚ) / cfg.joinedcells)⟩

/-- The slice-depth eligibility test of `_tree_components`
(`self.canopy[key] - self.ground[key] > args.slicedepth`). -/
def eligible (cfg : Config) (st : MapState) (key : XY_Coord) : Bool :=
  match alookup st.canopy key, alookup st.ground key with
  | some c, some g => decide (cfg.slicedepth < c - g)
  | _, _ => false  -- unreachable: canopy/ground share density's key set

/-- One iteration of the `key_scale_record` construction: an eligible fine
cell is appended to (or starts) its coarse key's membership set. -/
def ksr_step (cfg : Config) (st : MapState)
    (ksr : List (XY_Coord × List XY_Coord)) (kv : XY_Coord × ℕ) :
    List (XY_Coord × List XY_Coord) :=
  if eligible cfg st kv.1 then
    let cc := coarse cfg kv.1
    match alookup ksr cc with
    | none => aset ksr cc [kv.1]
    | some s => aset ksr cc (s ++ [kv.1])
  else ksr

/-- `key_scale_record`: coarse key -> the fine cells mapping to it, built by
iterating the density map in insertion order and keeping only eligible
cells. -/
def build_ksr (cfg : Config) (st : MapState) : List (XY_Coord × List XY_Coord) :=
  st.density.foldl (ksr_step cfg st) []

/-- The final comprehension of `_tree_components`: copy a coarse key's label
onto each of its fine member cells (`trees[k]` always succeeds: labels are
never deleted by `connected_components`). -/
def copy_labels (trees1 : List (XY_Coord × ℕ)) (acc : List (XY_Coord × ℕ))
    (e : XY_Coord × List XY_Coord) : List (XY_Coord × ℕ) :=
  e.2.foldl (fun acc s =>
    match alookup trees1 e.1 with
    | some l => aset acc s l
    | none => acc) acc

/-- `MapObj._tree_components`: enumerate the coarse keys, run the label
propagation, and copy each coarse label onto its fine member cells. -/
def tree_components (cfg : Config) (st : MapState) : List (XY_Coord × ℕ) :=
  let ksr := build_ksr cfg st
  let trees0 := (ksr.map (·.1)).enum.map (fun e => (e.2, e.1))
  let trees1 := connected_components trees0
  ksr.foldl (copy_labels trees1) []

/-- `MapObj.update_spatial`: stream the points, smooth the ground map in
place, then compute the tree labels from the smoothed state. -/
def update_spatial (cfg : Config) (pts : List Point) : MapState :=
  let st := ingest cfg pts
  let st := { st with ground := smooth_ground cfg st.ground }
  { st with trees := tree_components cfg st }

/-- A tree trait record as assembled by `tree_data` (the geocoded centroid is
delegated to the external projection collaborator and is out of scope; the
remaining fields are kept). -/
structure TreeData where
  height : ℚ
  area : ℚ
  base_altitude : ℚ
  point_count : ℕ
  colours : List (String × ℚ)
deriving DecidableEq, Repr

/-- The `for k in keys` loop of `tree_data`: fold the running maximum height,
the point count, and the per-colour `out[colour] = total / filtered_density[k]`
assignments (each cell *overwrites* the colour entry). -/
def tree_data_go (cfg : Config) (st : MapState) :
    List XY_Coord → ℚ → ℕ → List (String × ℚ) → Option (ℚ × ℕ × List (String × ℚ))
  | [], h, pc, cols => some (h, pc, cols)
  | k :: rest, h, pc, cols =>
    match alookup st.canopy k, alookup st.ground k, alookup st.density k,
          alookup st.colours k, alookup st.filtered_density k with
    | some c, some g, some d, some colk, some f =>
      tree_data_go cfg st rest (max h (c - g)) (pc + d)
        (colk.foldl (fun acc nv => aset acc nv.1 (nv.2 / (f : ℚ))) cols)
    | _, _, _, _, _ => none  -- a KeyError in Python

/-- Sum of the stored ground heights over a key list (`base_altitude`'s
numerator); `none` when a key is missing. -/
def sumGround (st : MapState) : List XY_Coord → Option ℚ
  | [] => some 0
  | k :: rest =>
    match alookup st.ground k, sumGround st rest with
    | some g, some s => some (g + s)
    | _, _ => none

/-- `MapObj.tree_data(keys)`: `none` models the exceptions Python would raise
(empty key set, or a missing per-cell entry). -/
def tree_data (cfg : Config) (st : MapState) (keys : List XY_Coord) : Option TreeData :=
  if keys.isEmpty then none
  else
    match sumGround st keys, tree_data_go cfg st keys 0 0 [] with
    | some sg, some (h, pc, cols) =>
      some ⟨h, (keys.length : ℚ) * cfg.cellsize ^ 2, sg / (keys.length : ℚ), pc, cols⟩
    | _, _ => none

/-- `ids = list(set(self.trees.values()))`, modelled in first-appearance
order (Python's set order is arbitrary; only the induced collection counts). -/
def labelsOf (st : MapState) : List ℕ :=
  (st.trees.map (·.2)).dedup

/-- `keys[v]`: the member cells of one label, in trees-map insertion order. -/
def keysOf (st : MapState) (v : ℕ) : List XY_Coord :=
  (st.trees.filter (fun kv => decide (kv.2 = v))).map (·.1)

/-- The generator loop of `all_trees`: aggregate each label and keep the
records whose height strictly exceeds `1.5 * slicedepth`. -/
def all_trees_go (cfg : Config) (st : MapState) :
    List ℕ → List TreeData → Option (List TreeData)
  | [], acc => some acc
  | v :: rest, acc =>
    match tree_data cfg st (keysOf st v) with
    | none => none
    | some data =>
      all_trees_go cfg st rest
        (if 3 / 2 * cfg.slicedepth < data.height then acc ++ [data] else acc)

/-- `MapObj.all_trees`, collected into a list. -/
def all_trees (cfg : Config) (st : MapState) : Option (List TreeData) :=
  all_trees_go cfg st (labelsOf st) []

/-- The filter of `save_sparse_cloud` with its default flags:
keep `not is_ground(p) or is_lowest(p)`. -/
def sparse_points (cfg : Config) (st : MapState) (pts : List Point) : List Point :=
  pts.filter (fun p => !is_ground cfg st p || is_lowest cfg st p)

/-- The whole two-pass pipeline of `MapObj.__init__` with colours enabled:
spatial pass (ingest, smooth, segment), then colour accumulation over the
same stream. -/
def pipeline (cfg : Config) (pts : List Point) : MapState :=
  update_colours cfg (update_spatial cfg pts) pts

/-! ## Definitions taken from the specification's wording

The following definitions do not embed source code; they transcribe the
wording of the specification (and of the claims derived from it), so that the
source-derived behaviour above can be compared against them. -/

/-- Spec wording for `detectIssues` eligibility: *all 8* Moore neighbors of
the cell are present in the ground layer. -/
def claim_all_present (gd : List (XY_Coord × ℚ)) (k : XY_Coord) : Bool :=
  (neighbors k).all (fun n => (alookup gd n).isSome)

/-- Spec wording for `detectIssues` steepness: the number of *neighbors*
(counted per neighbor, not per distinct height) whose ground height differs
from the cell's by more than `2 * cellsize`. -/
def claim_steep_count (cfg : Config) (gd : List (XY_Coord × ℚ)) (k : XY_Coord) : ℕ :=
  match alookup gd k with
  | none => 0
  | some gk =>
    ((presentVals gd k).filter (fun v => decide (2 * cfg.cellsize < |gk - v|))).length

/-- Spec wording for the per-tree attribute mean: the sum over member cells
of the accumulated per-cell totals, divided by the sum over member cells of
the filtered densities (missing entries contribute zero). -/
def spec_colour_mean (st : MapState) (keys : List XY_Coord) (name : String) : ℚ :=
  (keys.map (fun k =>
      ((alookup st.colours k).bind (fun cols => alookup cols name)).getD 0)).sum /
    ((keys.map (fun k => ((alookup st.filtered_density k).getD 0 : ℚ))).sum)

/-! ## Abstractions used by the proofs -/

/-- The heights observed in cell `k` of a point stream, in stream order. -/
def cellZ (cfg : Config) (k : XY_Coord) (pts : List Point) : List ℚ :=
  (pts.filter (fun p => decide (coords cfg p = k))).map Point.z

/-- The number of points of a stream falling in cell `k` that a given ground
map classifies as non-ground. -/
def ngCount (cfg : Config) (gmap : List (XY_Coord × ℚ)) (k : XY_Coord)
    (pts : List Point) : ℕ :=
  (pts.filter (fun p => decide (coords cfg p = k) && !is_groundG cfg gmap p)).length

/-- The pass-1 ingestion invariant: after streaming `seen`, each cell's raw
density is its point count, its filtered density is 1, its ground height is
the minimum observed height and its canopy height the maximum; unobserved
cells are absent from all four maps. -/
def GoodState (cfg : Config) (st : MapState) (seen : List Point) : Prop :=
  ∀ k : XY_Coord,
    (cellZ cfg k seen = [] →
      alookup st.density k = none ∧ alookup st.ground k = none ∧
      alookup st.canopy k = none ∧ alookup st.filtered_density k = none) ∧
    (cellZ cfg k seen ≠ [] →
      alookup st.density k = some (cellZ cfg k seen).length ∧
      alookup st.filtered_density k = some 1 ∧
      (∃ g, alookup st.ground k = some g ∧ g ∈ cellZ cfg k seen ∧
        ∀ z ∈ cellZ cfg k seen, g ≤ z) ∧
      (∃ c, alookup st.canopy k = some c ∧ c ∈ cellZ cfg k seen ∧
        ∀ z ∈ cellZ cfg k seen, z ≤ c))

/-! ## Concrete instances appearing in the claims and counterexamples -/

/-- The configuration of the spec's worked example (§8): `cellSize = 1`,
`sliceDepth = 0.5`, `groundDepth = 0.2`, with the default `joinedCells = 3`. -/
def cfgEx : Config := ⟨1, 1/2, 1/5, 3⟩

/-- The four points of the spec's worked example: two adjacent cells, each
with a ground point at `z = 0` and a canopy point at `z = 3`. -/
def ptsTwoCells : List Point :=
  [⟨0, 0, 0, []⟩, ⟨0, 0, 3, []⟩, ⟨1, 0, 0, []⟩, ⟨1, 0, 3, []⟩]

/-- Two eligible cells whose coarse keys `(0,0)` and `(0,1)` are 8-adjacent:
the input exhibiting the label-propagation defect. -/
def ptsTwoCoarse : List Point :=
  [⟨0, 0, 0, []⟩, ⟨0, 0, 3, []⟩, ⟨0, 3, 0, []⟩, ⟨0, 3, 3, []⟩]

/-- The worked example with one colour channel: cell `(0,0)` accumulates a
`red` total of 10 over filtered density 2, cell `(1,0)` a total of 40 over
filtered density 2. -/
def ptsColour : List Point :=
  [⟨0, 0, 0, [("red", 0)]⟩, ⟨0, 0, 3, [("red", 10)]⟩,
   ⟨1, 0, 0, [("red", 0)]⟩, ⟨1, 0, 3, [("red", 40)]⟩]

/-- One cell holding a lowest point at `z = 0` and a second point at
`z = 0.1`, within `groundDepth` of it. -/
def ptsLowPair : List Point := [⟨0, 0, 0, []⟩, ⟨0, 0, 1/10, []⟩]

/-- A 3×3 grid whose center cell is a deep pit (one point at `z = 0`)
surrounded by eight cells of distinct heights 10..17. -/
def ptsPit : List Point :=
  [⟨0, 0, 10, []⟩, ⟨0, 1, 11, []⟩, ⟨0, 2, 12, []⟩, ⟨1, 0, 13, []⟩, ⟨1, 1, 0, []⟩,
   ⟨1, 2, 14, []⟩, ⟨2, 0, 15, []⟩, ⟨2, 1, 16, []⟩, ⟨2, 2, 17, []⟩]

/-- A 3×3 grid whose center cell is a spike (one point at `z = 0`) above
eight cells of distinct heights &minus;10..&minus;17. -/
def ptsPeak : List Point :=
  [⟨0, 0, -10, []⟩, ⟨0, 1, -11, []⟩, ⟨0, 2, -12, []⟩, ⟨1, 0, -13, []⟩, ⟨1, 1, 0, []⟩,
   ⟨1, 2, -14, []⟩, ⟨2, 0, -15, []⟩, ⟨2, 1, -16, []⟩, ⟨2, 2, -17, []⟩]

/-- A ground map whose center cell has all 8 neighbors present, every one of
them 10 units higher — but all sharing the *same* height. -/
def gdFlatRim : List (XY_Coord × ℚ) :=
  [(⟨1, 1⟩, 0), (⟨0, 0⟩, 10), (⟨0, 1⟩, 10), (⟨0, 2⟩, 10), (⟨1, 0⟩, 10),
   (⟨1, 2⟩, 10), (⟨2, 0⟩, 10), (⟨2, 1⟩, 10), (⟨2, 2⟩, 10)]

/-- A ground map whose center cell has all 8 neighbors present with eight
distinct heights 10..17. -/
def gdSlopeRim : List (XY_Coord × ℚ) :=
  [(⟨1, 1⟩, 0), (⟨0, 0⟩, 10), (⟨0, 1⟩, 11), (⟨0, 2⟩, 12), (⟨1, 0⟩, 13),
   (⟨1, 2⟩, 14), (⟨2, 0⟩, 15), (⟨2, 1⟩, 16), (⟨2, 2⟩, 17)]

/-- A two-cell ground map on which `detect_issues` finds nothing. -/
def gdStable : List (XY_Coord × ℚ) := [(⟨0, 0⟩, 5), (⟨0, 1⟩, 6)]

/-- A configuration with `groundDepth` (2) larger than `sliceDepth` (0.3). -/
def cfgDeepGround : Config := ⟨1, 3/10, 2, 3⟩

/-- One cell with points at `z = 0` and `z = 1`: eligible for segmentation
under `cfgDeepGround`, yet both points are ground-classified. -/
def ptsShort : List Point := [⟨0, 0, 0, []⟩, ⟨0, 0, 1, []⟩]

/-! ## Association-list lemmas -/

theorem alookup_aset_self {κ α : Type} [DecidableEq κ] (m : List (κ × α)) (k : κ) (v : α) :
    alookup (aset m k v) k = some v := by
  induction m with
  | nil => simp [aset, alookup]
  | cons e rest ih =>
    by_cases h : e.1 = k
    · simp [aset, h, alookup]
    · simp [aset, h, alookup, ih]

theorem alookup_aset_ne {κ α : Type} [DecidableEq κ] (m : List (κ × α)) {k j : κ} (v : α)
    (h : j ≠ k) : alookup (aset m k v) j = alookup m j := by
  induction m with
  | nil => simp [aset, alookup, Ne.symm h]
  | cons e rest ih =>
    by_cases he : e.1 = k
    · simp [aset, he, alookup, Ne.symm h]
    · simp [aset, he, alookup, ih]

theorem isSome_alookup_aset {κ α : Type} [DecidableEq κ] (m : List (κ × α)) (k j : κ) (v : α)
    (h : (alookup m j).isSome) : (alookup (aset m k v) j).isSome := by
  by_cases hj : j = k
  · subst hj; simp [alookup_aset_self]
  · rwa [alookup_aset_ne m v hj]

theorem mem_aset_elim {κ α : Type} [DecidableEq κ] {m : List (κ × α)} {k : κ} {v : α}
    {e : κ × α} (h : e ∈ aset m k v) : e = (k, v) ∨ e ∈ m := by
  induction m with
  | nil => simpa [aset] using h
  | cons f rest ih =>
    by_cases hf : f.1 = k
    · simp only [aset, if_pos hf, List.mem_cons] at h
      rcases h with h | h
      · exact Or.inl h
      · exact Or.inr (List.mem_cons_of_mem _ h)
    · simp only [aset, if_neg hf, List.mem_cons] at h
      rcases h with h | h
      · exact Or.inr (by simp [h])
      · rcases ih h with h' | h'
        · exact Or.inl h'
        · exact Or.inr (List.mem_cons_of_mem _ h')

/-! ## Claim theorems on concrete inputs -/

/-- Claim C2 (code bug): on two eligible fine cells whose coarse keys
`(0,0)` and `(0,1)` are 8-adjacent (hence in the same 8-connected component
of occupied coarse keys), segmentation leaves the two cells with *different*
tree labels: `expand` returns upon meeting its first absent neighbor instead
of skipping it, and `connected_components` runs a single pass with no
retry-until-stable round, contradicting its own docstring. -/
theorem connected_components_splits_adjacent_coarse_keys :
    alookup (update_spatial cfgEx ptsTwoCoarse).trees ⟨0, 0⟩ = some 0 ∧
    alookup (update_spatial cfgEx ptsTwoCoarse).trees ⟨0, 3⟩ = some 1 ∧
    coarse cfgEx ⟨0, 0⟩ = ⟨0, 0⟩ ∧ coarse cfgEx ⟨0, 3⟩ = ⟨0, 1⟩ ∧
    (⟨0, 1⟩ : XY_Coord) ∈ neighbors ⟨0, 0⟩ ∧
    connected_components [(⟨0, 0⟩, 0), (⟨0, 1⟩, 1)] = [(⟨0, 0⟩, 0), (⟨0, 1⟩, 1)] := by
  decide

/-- Claim C7: the spec's worked example.  With `cellSize = 1`,
`sliceDepth = 0.5`, `groundDepth = 0.2`, `joinedCells = 3`, ingesting
`(0,0,0), (0,0,3), (1,0,0), (1,0,3)` and running smoothing, segmentation and
aggregation yields exactly one emitted tree record, with height 3, footprint
area 2 and point count 4. -/
theorem example_two_cell_tree :
    all_trees cfgEx (pipeline cfgEx ptsTwoCells) = some [⟨3, 2, 0, 4, []⟩] := by
  decide

/-- Claim C3 (code bug): the reported colour mean is *not* the ratio of
summed totals to summed filtered densities.  On `ptsColour` the two member
cells carry totals 10 and 40 with filtered density 2 each; the claimed mean
is `50/4 = 25/2`, but the emitted record reports `40/2 = 20` — the loop in
`tree_data` overwrites `out[colour]` with each member cell's own
`total / filtered_density`, so the last-iterated cell wins. -/
theorem tree_colour_mean_last_cell_bug :
    all_trees cfgEx (pipeline cfgEx ptsColour) = some [⟨3, 2, 0, 4, [("red", 20)]⟩] ∧
    spec_colour_mean (pipeline cfgEx ptsColour)
      (keysOf (pipeline cfgEx ptsColour) 0) "red" = 25 / 2 ∧
    ((20 : ℚ) ≠ 25 / 2) := by
  decide

/-- Claim C1, counterexample: a cell with all 8 Moore neighbors present and
all 8 of them steeper than `2 × cellSize` away is *not* flagged by
`detect_issues`, because the code collects neighbor heights into a set and
requires at least 6 *distinct* values — here the rim has only one. -/
theorem detect_issues_all_present_not_flagged :
    claim_all_present gdFlatRim ⟨1, 1⟩ = true ∧
    3 ≤ claim_steep_count cfgEx gdFlatRim ⟨1, 1⟩ ∧
    (⟨1, 1⟩ : XY_Coord) ∉ detect_issues cfgEx gdFlatRim [⟨1, 1⟩] := by
  decide

/-- Claim C5, counterexample: after pass 1 *including smoothing*, the pit
cell's stored ground height (12) exceeds its stored canopy height (0) — the
smoother rewrote the ground to `min(neighbors) + 2 × cellSize` without regard
to the canopy. -/
theorem smoothed_ground_above_canopy :
    alookup (update_spatial cfgEx ptsPit).ground ⟨1, 1⟩ = some 12 ∧
    alookup (update_spatial cfgEx ptsPit).canopy ⟨1, 1⟩ = some 0 ∧
    ¬ ((12 : ℚ) ≤ 0) := by
  decide

/-- Claim C6, counterexample: smoothing lowers the peak cell's ground to
&minus;15, so its sole point (at `z = 0`) is re-classified as non-ground in
pass 2 and the filtered density (2) ends up *above* the raw density (1). -/
theorem filtered_density_exceeds_density :
    alookup (pipeline cfgEx ptsPeak).filtered_density ⟨1, 1⟩ = some 2 ∧
    alookup (pipeline cfgEx ptsPeak).density ⟨1, 1⟩ = some 1 ∧
    ¬ (2 ≤ 1) := by
  decide

/-- Claim C4, counterexample: the cell's second point (`z = 0.1`, within
`groundDepth` of the lowest) is ground-classified and not the lowest, so the
sparse filter drops it; re-ingesting the filtered stream yields canopy height
0 instead of the original 0.1. -/
theorem sparse_roundtrip_canopy_counterexample :
    sparse_points cfgEx (update_spatial cfgEx ptsLowPair) ptsLowPair = [⟨0, 0, 0, []⟩] ∧
    alookup (ingest cfgEx ptsLowPair).canopy ⟨0, 0⟩ = some (1 / 10) ∧
    alookup (ingest cfgEx
      (sparse_points cfgEx (update_spatial cfgEx ptsLowPair) ptsLowPair)).canopy ⟨0, 0⟩ =
      some 0 ∧
    ((1 : ℚ) / 10 ≠ 0) := by
  decide

/-- Claim C10, counterexample: with `groundDepth = 2 > sliceDepth = 0.3`, the
cell `(0,0)` (points at `z = 0` and `z = 1`) is labeled as a tree member, yet
both its points are ground-classified, so pass 2 never creates its
colour-totals entry and the aggregator's lookup fails (a `KeyError`,
modelled as `none`). -/
theorem colour_lookup_missing_counterexample :
    alookup (update_spatial cfgDeepGround ptsShort).trees ⟨0, 0⟩ = some 0 ∧
    alookup (pipeline cfgDeepGround ptsShort).colours ⟨0, 0⟩ = none ∧
    tree_data cfgDeepGround (pipeline cfgDeepGround ptsShort)
      (keysOf (pipeline cfgDeepGround ptsShort) 0) = none := by
  decide

/-! ## The ground smoother on stable grids (C9) -/

theorem detect_issues_nil (cfg : Config) (gd : List (XY_Coord × ℚ)) :
    detect_issues cfg gd [] = [] := rfl

theorem smooth_loop_nil (cfg : Config) (n : ℕ) (gd : List (XY_Coord × ℚ)) :
    smooth_loop cfg n gd [] = gd := by
  induction n with
  | zero => rfl
  | succ n ih => simpa [smooth_loop, detect_issues_nil] using ih

/-- Claim C9: if `detect_issues` on the full cell set returns the empty set,
then the whole 100-round smoother leaves the ground map unchanged. -/
theorem smooth_ground_noop_of_stable (cfg : Config) (gd : List (XY_Coord × ℚ))
    (h : detect_issues cfg gd (gd.map (·.1)) = []) : smooth_ground cfg gd = gd := by
  show smooth_loop cfg 100 gd (gd.map (·.1)) = gd
  rw [show (100 : ℕ) = 99 + 1 from rfl, smooth_loop, h]
  simpa using smooth_loop_nil cfg 99 gd

/-- Witness for `smooth_ground_noop_of_stable` at the concrete stable map
`gdStable`. -/
theorem smooth_ground_noop_of_stable_witness :
    smooth_ground cfgEx gdStable = gdStable :=
  smooth_ground_noop_of_stable cfgEx gdStable (by decide)

/-! ## The corrected flagging rule of `detect_issues` (C1) -/

/-- Claim C1 (amended): `detect_issues` flags a candidate cell if and only if
the *set of distinct ground heights* among its present Moore neighbors has at
least 6 elements, of which at least 3 differ from the cell's ground height by
more than `2 × cellSize`.  (In particular presence of all 8 neighbors is
neither necessary nor sufficient: only distinct heights are counted.) -/
theorem filter_toFinset_card_eq (gd : List (XY_Coord × ℚ)) (k : XY_Coord)
    (P : ℚ → Prop) [DecidablePred P] :
    ((presentVals gd k).toFinset.filter P).card =
      ((adjacentVals gd k).filter (fun v => decide (P v))).length := by
  have hnd : ((adjacentVals gd k).filter fun v => decide (P v)).Nodup :=
    (List.nodup_dedup _).filter _
  rw [← List.toFinset_card_of_nodup hnd]
  congr 1
  ext v
  simp [List.mem_filter, adjacentVals, List.mem_dedup]

/-- Claim C1 (amended): `detect_issues` flags a candidate cell if and only if
the *set of distinct ground heights* among its present Moore neighbors has at
least 6 elements, of which at least 3 differ from the cell's ground height by
more than `2 × cellSize`.  (In particular presence of all 8 neighbors is
neither necessary nor sufficient: only distinct heights are counted, and 6 of
them suffice.) -/
theorem detect_issues_flag_iff (cfg : Config) (gd : List (XY_Coord × ℚ))
    (prior : List XY_Coord) (k : XY_Coord) :
    k ∈ detect_issues cfg gd prior ↔
      k ∈ prior ∧ ∃ gk, alookup gd k = some gk ∧
        6 ≤ (presentVals gd k).toFinset.card ∧
        3 ≤ ((presentVals gd k).toFinset.filter
              (fun v => 2 * cfg.cellsize < |gk - v|)).card := by
  have hcard : (presentVals gd k).toFinset.card = (adjacentVals gd k).length :=
    List.card_toFinset _
  rw [detect_issues, List.mem_filter]
  refine and_congr_right fun _ => ?_
  rcases hlk : alookup gd k with _ | gk
  · simp only [hlk]
    constructor
    · intro hp
      split at hp <;> simp_all
    · rintro ⟨gk, hgk, -⟩
      cases hgk
  · simp only [hlk, Option.some.injEq, exists_eq_left']
    rw [filter_toFinset_card_eq gd k (fun v => 2 * cfg.cellsize < |gk - v|), hcard]
    constructor
    · intro hp
      split at hp
      · simp_all
      · refine ⟨?_, ?_⟩
        · omega
        · simpa using hp
    · rintro ⟨h6, h3⟩
      split
      · omega
      · simpa using h3

/-- Witness for `detect_issues_flag_iff`: with eight distinct rim heights the
center cell is flagged. -/
theorem detect_issues_flag_iff_witness :
    (⟨1, 1⟩ : XY_Coord) ∈ detect_issues cfgEx gdSlopeRim [⟨1, 1⟩] :=
  (detect_issues_flag_iff cfgEx gdSlopeRim [⟨1, 1⟩] ⟨1, 1⟩).mpr
    ⟨by decide, 0, by decide, by decide, by decide⟩

/-! ## The emission threshold of `all_trees` (C8) -/

theorem all_trees_go_acc_subset (cfg : Config) (st : MapState) :
    ∀ (ids : List ℕ) (acc ts : List TreeData),
      all_trees_go cfg st ids acc = some ts → ∀ d ∈ acc, d ∈ ts := by
  intro ids
  induction ids with
  | nil =>
    intro acc ts h d hd
    rw [all_trees_go, Option.some.injEq] at h
    exact h ▸ hd
  | cons v rest ih =>
    intro acc ts h d hd
    rw [all_trees_go] at h
    rcases htd : tree_data cfg st (keysOf st v) with _ | data
    · rw [htd] at h; cases h
    · rw [htd] at h
      refine ih _ ts h d ?_
      split
      · exact List.mem_append_left _ hd
      · exact hd

theorem all_trees_go_threshold (cfg : Config) (st : MapState) :
    ∀ (ids : List ℕ) (acc ts : List TreeData),
      (∀ d ∈ acc, 3 / 2 * cfg.slicedepth < d.height) →
      all_trees_go cfg st ids acc = some ts →
      ∀ d ∈ ts, 3 / 2 * cfg.slicedepth < d.height := by
  intro ids
  induction ids with
  | nil =>
    intro acc ts hacc h d hd
    rw [all_trees_go, Option.some.injEq] at h
    exact hacc d (h ▸ hd)
  | cons v rest ih =>
    intro acc ts hacc h d hd
    rw [all_trees_go] at h
    rcases htd : tree_data cfg st (keysOf st v) with _ | data
    · rw [htd] at h; cases h
    · rw [htd] at h
      refine ih _ ts ?_ h d hd
      split
      · next hthr =>
        intro d' hd'
        rcases List.mem_append.mp hd' with h' | h'
        · exact hacc d' h'
        · rcases List.mem_singleton.mp h' with rfl
          exact hthr
      · exact hacc

theorem all_trees_go_complete (cfg : Config) (st : MapState) :
    ∀ (ids : List ℕ) (acc ts : List TreeData),
      all_trees_go cfg st ids acc = some ts →
      ∀ v ∈ ids, ∀ d, tree_data cfg st (keysOf st v) = some d →
        3 / 2 * cfg.slicedepth < d.height → d ∈ ts := by
  intro ids
  induction ids with
  | nil =>
    intro acc ts _ v hv
    cases hv
  | cons v' rest ih =>
    intro acc ts h v hv d htd hthr
    rw [all_trees_go] at h
    rcases hv' : tree_data cfg st (keysOf st v') with _ | data
    · rw [hv'] at h; cases h
    · rw [hv'] at h
      rcases List.mem_cons.mp hv with rfl | hv2
      · rw [hv'] at htd
        injection htd with hdd
        subst hdd
        refine all_trees_go_acc_subset cfg st rest _ ts h data ?_
        rw [if_pos hthr]
        exact List.mem_append_right _ (List.mem_singleton.mpr rfl)
      · exact ih _ ts h v hv2 d htd hthr

/-- Claim C8: a tree record is emitted if and only if its computed height
strictly exceeds `1.5 × sliceDepth`: every emitted record satisfies the
strict inequality (so a component whose height equals exactly
`1.5 × sliceDepth` is excluded), and every label whose aggregated record
satisfies it is emitted. -/
theorem all_trees_height_threshold_iff (cfg : Config) (st : MapState)
    (ts : List TreeData) (h : all_trees cfg st = some ts) :
    (∀ d ∈ ts, 3 / 2 * cfg.slicedepth < d.height) ∧
    (∀ v ∈ labelsOf st, ∀ d, tree_data cfg st (keysOf st v) = some d →
      3 / 2 * cfg.slicedepth < d.height → d ∈ ts) :=
  ⟨all_trees_go_threshold cfg st (labelsOf st) [] ts (by intro d hd; cases hd) h,
   all_trees_go_complete cfg st (labelsOf st) [] ts h⟩

/-- Witness for `all_trees_height_threshold_iff` at the worked example's
final state. -/
theorem all_trees_height_threshold_iff_witness :
    (∀ d ∈ [(⟨3, 2, 0, 4, []⟩ : TreeData)], 3 / 2 * cfgEx.slicedepth < d.height) ∧
    (∀ v ∈ labelsOf (pipeline cfgEx ptsTwoCells), ∀ d,
      tree_data cfgEx (pipeline cfgEx ptsTwoCells)
        (keysOf (pipeline cfgEx ptsTwoCells) v) = some d →
      3 / 2 * cfgEx.slicedepth < d.height → d ∈ [(⟨3, 2, 0, 4, []⟩ : TreeData)]) :=
  all_trees_height_threshold_iff cfgEx (pipeline cfgEx ptsTwoCells) _ (by decide)

/-! ## The pass-1 ingestion invariant -/

theorem cellZ_nil (cfg : Config) (k : XY_Coord) : cellZ cfg k [] = [] := rfl

theorem cellZ_snoc (cfg : Config) (k : XY_Coord) (seen : List Point) (p : Point) :
    cellZ cfg k (seen ++ [p]) =
      cellZ cfg k seen ++ (if coords cfg p = k then [p.z] else []) := by
  by_cases hc : coords cfg p = k
  · simp [cellZ, List.filter_append, List.filter_cons, hc]
  · simp [cellZ, List.filter_append, List.filter_cons, hc]

theorem ingest_step_other (cfg : Config) (st : MapState) (p : Point) (k : XY_Coord)
    (hk : k ≠ coords cfg p) :
    alookup (ingest_step cfg st p).density k = alookup st.density k ∧
    alookup (ingest_step cfg st p).ground k = alookup st.ground k ∧
    alookup (ingest_step cfg st p).canopy k = alookup st.canopy k ∧
    alookup (ingest_step cfg st p).filtered_density k = alookup st.filtered_density k := by
  unfold ingest_step
  cases hdd : alookup st.density (coords cfg p) with
  | none => simp [hdd, alookup_aset_ne _ _ hk]
  | some d =>
    cases hgg : alookup st.ground (coords cfg p) with
    | none =>
      cases hcc : alookup st.canopy (coords cfg p) <;>
        simp [hdd, hgg, alookup_aset_ne _ _ hk]
    | some g =>
      cases hcc : alookup st.canopy (coords cfg p) with
      | none => simp [hdd, hgg, hcc, alookup_aset_ne _ _ hk]
      | some c =>
        simp only [hdd, hgg, hcc]
        split_ifs <;> simp [alookup_aset_ne _ _ hk]

theorem goodState_step (cfg : Config) {st : MapState} {seen : List Point}
    (h : GoodState cfg st seen) (p : Point) :
    GoodState cfg (ingest_step cfg st p) (seen ++ [p]) := by
  intro k
  rw [cellZ_snoc]
  by_cases hk : coords cfg p = k
  case neg =>
    rw [if_neg hk, List.append_nil]
    obtain ⟨ho1, ho2, ho3, ho4⟩ := ingest_step_other cfg st p k (fun he => hk he.symm)
    rw [ho1, ho2, ho3, ho4]
    exact h k
  case pos =>
    rw [if_pos hk]
    rcases hd : alookup st.density k with _ | d
    · -- first point ever seen in this cell
      have hnil : cellZ cfg k seen = [] := by
        by_contra hne
        obtain ⟨hd', -⟩ := (h k).2 hne
        rw [hd] at hd'; cases hd'
      rw [hnil, List.nil_append]
      refine ⟨fun habs => absurd habs (by simp), fun _ => ?_⟩
      unfold ingest_step
      rw [hk]
      dsimp only
      rw [hd]
      dsimp only
      refine ⟨?_, ?_, ⟨p.z, ?_, ?_, ?_⟩, ⟨p.z, ?_, ?_, ?_⟩⟩ <;>
        simp [alookup_aset_self]
    · -- the cell already has points
      have hne : cellZ cfg k seen ≠ [] := by
        intro hnil
        obtain ⟨hd', -⟩ := (h k).1 hnil
        rw [hd] at hd'; cases hd'
      obtain ⟨hdl, hfd, ⟨g, hg, hgm, hglb⟩, ⟨c, hc, hcm, hcub⟩⟩ := (h k).2 hne
      have hdlen : d = (cellZ cfg k seen).length := by
        have := hd.symm.trans hdl
        exact Option.some.inj this
      have hgc : g ≤ c := hglb c hcm
      refine ⟨fun habs => absurd habs (by simp [hne]), fun _ => ?_⟩
      unfold ingest_step
      rw [hk]
      dsimp only
      rw [hd]
      dsimp only
      rw [hg, hc]
      dsimp only
      by_cases h1 : g > p.z
      · rw [if_pos h1]
        refine ⟨?_, ?_, ⟨p.z, ?_, ?_, ?_⟩, ⟨c, ?_, ?_, ?_⟩⟩
        · rw [alookup_aset_self]
          simp [hdlen, List.length_append]
        · exact hfd
        · exact alookup_aset_self _ _ _
        · exact List.mem_append_right _ (by simp)
        · intro z hz
          rcases List.mem_append.mp hz with hz | hz
          · exact le_of_lt (lt_of_lt_of_le h1 (hglb z hz))
          · simp at hz; simp [hz]
        · exact hc
        · exact List.mem_append_left _ hcm
        · intro z hz
          rcases List.mem_append.mp hz with hz | hz
          · exact hcub z hz
          · simp at hz; rw [hz]; exact le_of_lt (lt_of_lt_of_le h1 hgc)
      · rw [if_neg h1]
        push_neg at h1
        by_cases h2 : c < p.z
        · rw [if_pos h2]
          refine ⟨?_, ?_, ⟨g, ?_, ?_, ?_⟩, ⟨p.z, ?_, ?_, ?_⟩⟩
          · rw [alookup_aset_self]
            simp [hdlen, List.length_append]
          · exact hfd
          · exact hg
          · exact List.mem_append_left _ hgm
          · intro z hz
            rcases List.mem_append.mp hz with hz | hz
            · exact hglb z hz
            · simp at hz; rw [hz]; exact h1
          · exact alookup_aset_self _ _ _
          · exact List.mem_append_right _ (by simp)
          · intro z hz
            rcases List.mem_append.mp hz with hz | hz
            · exact le_of_lt (lt_of_le_of_lt (hcub z hz) h2)
            · simp at hz; simp [hz]
        · rw [if_neg h2]
          push_neg at h2
          refine ⟨?_, ?_, ⟨g, ?_, ?_, ?_⟩, ⟨c, ?_, ?_, ?_⟩⟩
          · rw [alookup_aset_self]
            simp [hdlen, List.length_append]
          · exact hfd
          · exact hg
          · exact List.mem_append_left _ hgm
          · intro z hz
            rcases List.mem_append.mp hz with hz | hz
            · exact hglb z hz
            · simp at hz; rw [hz]; exact h1
          · exact hc
          · exact List.mem_append_left _ hcm
          · intro z hz
            rcases List.mem_append.mp hz with hz | hz
            · exact hcub z hz
            · simp at hz; rw [hz]; exact h2

theorem goodState_foldl (cfg : Config) :
    ∀ (pts : List Point) (st : MapState) (seen : List Point),
      GoodState cfg st seen →
      GoodState cfg (pts.foldl (ingest_step cfg) st) (seen ++ pts) := by
  intro pts
  induction pts with
  | nil => intro st seen h; simpa using h
  | cons p rest ih =>
    intro st seen h
    have h2 := ih (ingest_step cfg st p) (seen ++ [p]) (goodState_step cfg h p)
    simpa using h2

theorem goodState_empty (cfg : Config) : GoodState cfg emptyMap [] := by
  intro k
  exact ⟨fun _ => ⟨rfl, rfl, rfl, rfl⟩, fun hne => absurd rfl hne⟩

theorem ingest_goodState (cfg : Config) (pts : List Point) :
    GoodState cfg (ingest cfg pts) pts := by
  have := goodState_foldl cfg pts emptyMap [] (goodState_empty cfg)
  simpa [ingest] using this

/-- Claim C5 (amended): after the ingestion loop of pass 1 and *before*
ground smoothing, every occupied cell satisfies ground ≤ canopy (smoothing
can subsequently raise a cell's ground above its canopy, see
`smoothed_ground_above_canopy`). -/
theorem ingest_ground_le_canopy (cfg : Config) (pts : List Point) (k : XY_Coord)
    (g c : ℚ) (hg : alookup (ingest cfg pts).ground k = some g)
    (hc : alookup (ingest cfg pts).canopy k = some c) : g ≤ c := by
  have h := ingest_goodState cfg pts k
  by_cases hz : cellZ cfg k pts = []
  · obtain ⟨-, hg', -, -⟩ := h.1 hz
    rw [hg] at hg'; cases hg'
  · obtain ⟨-, -, ⟨g', hg', -, hglb⟩, ⟨c', hc', hcm, -⟩⟩ := h.2 hz
    have hgg : g = g' := Option.some.inj (hg.symm.trans hg')
    have hcc : c = c' := Option.some.inj (hc.symm.trans hc')
    rw [hgg, hcc]
    exact hglb c' hcm

/-- Witness for `ingest_ground_le_canopy` at the worked example's cell. -/
theorem ingest_ground_le_canopy_witness :
    alookup (ingest cfgEx ptsTwoCells).ground ⟨0, 0⟩ = some 0 ∧
    alookup (ingest cfgEx ptsTwoCells).canopy ⟨0, 0⟩ = some 3 ∧ (0 : ℚ) ≤ 3 :=
  ⟨by decide, by decide,
   ingest_ground_le_canopy cfgEx ptsTwoCells ⟨0, 0⟩ 0 3 (by decide) (by decide)⟩

/-! ## Field preservation across the pipeline stages -/

theorem update_spatial_density (cfg : Config) (pts : List Point) :
    (update_spatial cfg pts).density = (ingest cfg pts).density := by
  simp only [update_spatial]

theorem update_spatial_canopy (cfg : Config) (pts : List Point) :
    (update_spatial cfg pts).canopy = (ingest cfg pts).canopy := by
  simp only [update_spatial]

theorem update_spatial_fd (cfg : Config) (pts : List Point) :
    (update_spatial cfg pts).filtered_density = (ingest cfg pts).filtered_density := by
  simp only [update_spatial]

theorem update_spatial_ground (cfg : Config) (pts : List Point) :
    (update_spatial cfg pts).ground = smooth_ground cfg (ingest cfg pts).ground := by
  simp only [update_spatial]

theorem update_spatial_trees (cfg : Config) (pts : List Point) :
    (update_spatial cfg pts).trees =
      tree_components cfg
        { ingest cfg pts with ground := smooth_ground cfg (ingest cfg pts).ground } := by
  simp only [update_spatial]

theorem colours_step_ground (cfg : Config) (st : MapState) (p : Point) :
    (colours_step cfg st p).ground = st.ground := by
  unfold colours_step
  split
  · rfl
  · dsimp only
    cases alookup st.filtered_density (coords cfg p) with
    | none => rfl
    | some f =>
      cases alookup st.colours (coords cfg p) with
      | none => rfl
      | some stored => rfl

theorem colours_step_density (cfg : Config) (st : MapState) (p : Point) :
    (colours_step cfg st p).density = st.density := by
  unfold colours_step
  split
  · rfl
  · dsimp only
    cases alookup st.filtered_density (coords cfg p) with
    | none => rfl
    | some f =>
      cases alookup st.colours (coords cfg p) with
      | none => rfl
      | some stored => rfl

theorem colours_step_canopy (cfg : Config) (st : MapState) (p : Point) :
    (colours_step cfg st p).canopy = st.canopy := by
  unfold colours_step
  split
  · rfl
  · dsimp only
    cases alookup st.filtered_density (coords cfg p) with
    | none => rfl
    | some f =>
      cases alookup st.colours (coords cfg p) with
      | none => rfl
      | some stored => rfl

theorem colours_step_trees (cfg : Config) (st : MapState) (p : Point) :
    (colours_step cfg st p).trees = st.trees := by
  unfold colours_step
  split
  · rfl
  · dsimp only
    cases alookup st.filtered_density (coords cfg p) with
    | none => rfl
    | some f =>
      cases alookup st.colours (coords cfg p) with
      | none => rfl
      | some stored => rfl

theorem update_colours_ground (cfg : Config) :
    ∀ (pts : List Point) (st : MapState), (update_colours cfg st pts).ground = st.ground := by
  intro pts
  induction pts with
  | nil => intro st; rfl
  | cons p rest ih =>
    intro st
    have hstep : update_colours cfg st (p :: rest) =
        update_colours cfg (colours_step cfg st p) rest := rfl
    rw [hstep, ih, colours_step_ground]

theorem update_colours_density (cfg : Config) :
    ∀ (pts : List Point) (st : MapState), (update_colours cfg st pts).density = st.density := by
  intro pts
  induction pts with
  | nil => intro st; rfl
  | cons p rest ih =>
    intro st
    have hstep : update_colours cfg st (p :: rest) =
        update_colours cfg (colours_step cfg st p) rest := rfl
    rw [hstep, ih, colours_step_density]

theorem update_colours_trees (cfg : Config) :
    ∀ (pts : List Point) (st : MapState), (update_colours cfg st pts).trees = st.trees := by
  intro pts
  induction pts with
  | nil => intro st; rfl
  | cons p rest ih =>
    intro st
    have hstep : update_colours cfg st (p :: rest) =
        update_colours cfg (colours_step cfg st p) rest := rfl
    rw [hstep, ih, colours_step_trees]

/-! ## Pass-2 accumulation lemmas -/

theorem colours_step_fd_isSome (cfg : Config) (st : MapState) (p : Point) (j : XY_Coord)
    (h : (alookup st.filtered_density j).isSome) :
    (alookup (colours_step cfg st p).filtered_density j).isSome := by
  unfold colours_step
  split
  · exact h
  · dsimp only
    cases alookup st.filtered_density (coords cfg p) with
    | none => exact h
    | some f =>
      cases alookup st.colours (coords cfg p) with
      | none => exact isSome_alookup_aset _ _ _ _ h
      | some stored => exact isSome_alookup_aset _ _ _ _ h

theorem colours_step_colours_isSome (cfg : Config) (st : MapState) (p : Point) (j : XY_Coord)
    (h : (alookup st.colours j).isSome) :
    (alookup (colours_step cfg st p).colours j).isSome := by
  unfold colours_step
  split
  · exact h
  · dsimp only
    cases alookup st.filtered_density (coords cfg p) with
    | none => exact h
    | some f =>
      cases alookup st.colours (coords cfg p) with
      | none => exact isSome_alookup_aset _ _ _ _ h
      | some stored => exact isSome_alookup_aset _ _ _ _ h

theorem update_colours_colours_isSome (cfg : Config) :
    ∀ (pts : List Point) (st : MapState) (j : XY_Coord),
      (alookup st.colours j).isSome →
      (alookup (update_colours cfg st pts).colours j).isSome := by
  intro pts
  induction pts with
  | nil => intro st j h; exact h
  | cons p rest ih =>
    intro st j h
    have hstep : update_colours cfg st (p :: rest) =
        update_colours cfg (colours_step cfg st p) rest := rfl
    rw [hstep]
    exact ih _ j (colours_step_colours_isSome cfg st p j h)

theorem update_colours_fd (cfg : Config) :
    ∀ (pts : List Point) (st : MapState) (k : XY_Coord) (f : ℕ),
      (∀ p ∈ pts, (alookup st.filtered_density (coords cfg p)).isSome) →
      alookup st.filtered_density k = some f →
      alookup (update_colours cfg st pts).filtered_density k =
        some (f + ngCount cfg st.ground k pts) := by
  intro pts
  induction pts with
  | nil =>
    intro st k f _ hf
    simpa [update_colours, ngCount] using hf
  | cons p rest ih =>
    intro st k f hall hf
    have hstep : update_colours cfg st (p :: rest) =
        update_colours cfg (colours_step cfg st p) rest := rfl
    rw [hstep]
    by_cases hg : is_ground cfg st p = true
    · have hcs : colours_step cfg st p = st := by
        unfold colours_step
        rw [if_pos hg]
      rw [hcs, ih st k f (fun q hq => hall q (List.mem_cons_of_mem p hq)) hf]
      have hng : ngCount cfg st.ground k (p :: rest) = ngCount cfg st.ground k rest := by
        have hg' : is_groundG cfg st.ground p = true := hg
        simp [ngCount, List.filter_cons, hg']
      rw [hng]
    · have hpsome := hall p (List.mem_cons_self p rest)
      rcases hfd0 : alookup st.filtered_density (coords cfg p) with _ | f0
      · rw [hfd0] at hpsome; simp at hpsome
      · have hfd' : (colours_step cfg st p).filtered_density =
            aset st.filtered_density (coords cfg p) (f0 + 1) := by
          unfold colours_step
          rw [if_neg hg]
          dsimp only
          rw [hfd0]
          cases alookup st.colours (coords cfg p) with
          | none => rfl
          | some stored => rfl
        have hgr' : (colours_step cfg st p).ground = st.ground :=
          colours_step_ground cfg st p
        have hall' : ∀ q ∈ rest,
            (alookup (colours_step cfg st p).filtered_density (coords cfg q)).isSome :=
          fun q hq => colours_step_fd_isSome cfg st p _ (hall q (List.mem_cons_of_mem p hq))
        have hgnot : is_groundG cfg st.ground p = false := by
          have h2 : is_ground cfg st p = false := by simpa using hg
          exact h2
        by_cases hkx : k = coords cfg p
        · rw [hkx] at hf
          have hff : f = f0 := Option.some.inj (hf.symm.trans hfd0)
          subst hff
          have hlk' : alookup (colours_step cfg st p).filtered_density k = some (f + 1) := by
            rw [hfd', hkx]
            exact alookup_aset_self _ _ _
          rw [ih (colours_step cfg st p) k (f + 1) hall' hlk', hgr']
          have hcoord : coords cfg p = k := hkx.symm
          have hng : ngCount cfg st.ground k (p :: rest) =
              ngCount cfg st.ground k rest + 1 := by
            simp [ngCount, List.filter_cons, hcoord, hgnot]
          rw [hng]
          congr 1
          omega
        · have hlk' : alookup (colours_step cfg st p).filtered_density k = some f := by
            rw [hfd', alookup_aset_ne _ _ hkx]; exact hf
          rw [ih (colours_step cfg st p) k f hall' hlk', hgr']
          have hne : ¬ coords cfg p = k := fun he => hkx he.symm
          have hng : ngCount cfg st.ground k (p :: rest) = ngCount cfg st.ground k rest := by
            simp [ngCount, List.filter_cons, hne]
          rw [hng]

theorem length_filter_and_le {α : Type} (l : List α) (p q : α → Bool) :
    (l.filter (fun a => p a && q a)).length ≤ (l.filter p).length := by
  induction l with
  | nil => simp
  | cons a t ih =>
    by_cases hp : p a <;> by_cases hq : q a <;>
      simp [List.filter_cons, hp, hq] <;> omega

theorem z_mem_cellZ (cfg : Config) (p : Point) (pts : List Point) (hp : p ∈ pts) :
    p.z ∈ cellZ cfg (coords cfg p) pts := by
  simp only [cellZ, List.mem_map, List.mem_filter]
  exact ⟨p, ⟨hp, by simp⟩, rfl⟩

/-- Claim C6 (amended): during pass 1 the filtered density of every occupied
cell never exceeds its raw density; during and after pass 2 it never exceeds
the raw density *plus one* (and the slack is attained when smoothing lowers a
cell's ground so far that every point of the cell, the lowest included, is
re-classified as non-ground, see `filtered_density_exceeds_density`). -/
theorem filtered_density_bounds (cfg : Config) (pts : List Point) :
    (∀ (n : ℕ) (k : XY_Coord) (f d : ℕ),
        alookup (ingest cfg (pts.take n)).filtered_density k = some f →
        alookup (ingest cfg (pts.take n)).density k = some d → f ≤ d) ∧
    (∀ (n : ℕ) (k : XY_Coord) (f d : ℕ),
        alookup (update_colours cfg (update_spatial cfg pts) (pts.take n)).filtered_density k
          = some f →
        alookup (update_spatial cfg pts).density k = some d → f ≤ d + 1) := by
  constructor
  · intro n k f d hf hd
    have h := ingest_goodState cfg (pts.take n) k
    by_cases hz : cellZ cfg k (pts.take n) = []
    · obtain ⟨hd', -, -, -⟩ := h.1 hz
      rw [hd] at hd'; cases hd'
    · obtain ⟨hd', hfd', -, -⟩ := h.2 hz
      have hf1 : f = 1 := Option.some.inj (hf.symm.trans hfd')
      have hdd : d = (cellZ cfg k (pts.take n)).length :=
        Option.some.inj (hd.symm.trans hd')
      have hpos : 0 < (cellZ cfg k (pts.take n)).length := List.length_pos.mpr hz
      omega
  · intro n k f d hf hd
    have hgood := ingest_goodState cfg pts k
    have hdi : alookup (ingest cfg pts).density k = some d := by
      rw [← update_spatial_density]; exact hd
    by_cases hz : cellZ cfg k pts = []
    · obtain ⟨hd', -, -, -⟩ := hgood.1 hz
      rw [hdi] at hd'; cases hd'
    · obtain ⟨hd', hfd', -, -⟩ := hgood.2 hz
      have hdd : d = (cellZ cfg k pts).length := Option.some.inj (hdi.symm.trans hd')
      have hfd1 : alookup (update_spatial cfg pts).filtered_density k = some 1 := by
        rw [update_spatial_fd]; exact hfd'
      have hall : ∀ p ∈ pts.take n,
          (alookup (update_spatial cfg pts).filtered_density (coords cfg p)).isSome := by
        intro p hp
        rw [update_spatial_fd]
        have hpin : p ∈ pts := List.take_subset n pts hp
        have hnz : cellZ cfg (coords cfg p) pts ≠ [] :=
          List.ne_nil_of_mem (z_mem_cellZ cfg p pts hpin)
        obtain ⟨-, hfd2, -, -⟩ := (ingest_goodState cfg pts (coords cfg p)).2 hnz
        simp [hfd2]
      have hcount := update_colours_fd cfg (pts.take n) (update_spatial cfg pts) k 1 hall hfd1
      rw [hf] at hcount
      have hfeq : f = 1 + ngCount cfg (update_spatial cfg pts).ground k (pts.take n) :=
        Option.some.inj hcount
      have hcnt : ngCount cfg (update_spatial cfg pts).ground k (pts.take n) ≤ d := by
        rw [hdd]
        calc ngCount cfg (update_spatial cfg pts).ground k (pts.take n)
            ≤ ((pts.take n).filter (fun p => decide (coords cfg p = k))).length :=
              length_filter_and_le (pts.take n) _ _
          _ ≤ (pts.filter (fun p => decide (coords cfg p = k))).length :=
              ((List.take_sublist n pts).filter _).length_le
          _ = (cellZ cfg k pts).length := by simp [cellZ]
      omega

/-- Witness for `filtered_density_bounds` at the worked example. -/
theorem filtered_density_bounds_witness : (1 : ℕ) ≤ 2 ∧ (2 : ℕ) ≤ 2 + 1 :=
  ⟨(filtered_density_bounds cfgEx ptsTwoCells).1 2 ⟨0, 0⟩ 1 2 (by decide) (by decide),
   (filtered_density_bounds cfgEx ptsTwoCells).2 4 ⟨0, 0⟩ 2 2 (by decide) (by decide)⟩

/-! ## Labeled cells and their colour entries (C10) -/

theorem alookup_mem {κ α : Type} [DecidableEq κ] :
    ∀ {m : List (κ × α)} {k : κ} {v : α}, alookup m k = some v → (k, v) ∈ m := by
  intro m
  induction m with
  | nil => intro k v h; cases h
  | cons e rest ih =>
    intro k v h
    by_cases he : e.1 = k
    · rw [alookup, if_pos he] at h
      injection h with hv
      cases e with
      | mk a b =>
        simp only at he hv
        subst he; subst hv
        exact List.mem_cons_self _ _
    · rw [alookup, if_neg he] at h
      exact List.mem_cons_of_mem _ (ih h)

theorem alookup_aset_isSome_elim {κ α : Type} [DecidableEq κ] (m : List (κ × α))
    (s k : κ) (v : α) (h : (alookup (aset m s v) k).isSome) :
    k = s ∨ (alookup m k).isSome := by
  by_cases hk : k = s
  · exact Or.inl hk
  · rw [alookup_aset_ne _ _ hk] at h
    exact Or.inr h

theorem eligible_iff (cfg : Config) (st : MapState) (k : XY_Coord) :
    eligible cfg st k = true ↔
      ∃ c g, alookup st.canopy k = some c ∧ alookup st.ground k = some g ∧
        cfg.slicedepth < c - g := by
  unfold eligible
  cases hc : alookup st.canopy k with
  | none => simp [hc]
  | some c =>
    cases hg : alookup st.ground k with
    | none => simp [hc, hg]
    | some g => simp [hc, hg]

theorem ksr_step_spec (cfg : Config) (st : MapState)
    (ksr : List (XY_Coord × List XY_Coord)) (kv : XY_Coord × ℕ)
    (hinv : ∀ e ∈ ksr, ∀ fk ∈ e.2, eligible cfg st fk = true) :
    ∀ e ∈ ksr_step cfg st ksr kv, ∀ fk ∈ e.2, eligible cfg st fk = true := by
  intro e he fk hfk
  unfold ksr_step at he
  by_cases hel : eligible cfg st kv.1 = true
  · rw [if_pos hel] at he
    dsimp only at he
    rcases hcc : alookup ksr (coarse cfg kv.1) with _ | s
    · rw [hcc] at he
      rcases mem_aset_elim he with rfl | he2
      · simp only [List.mem_singleton] at hfk
        rw [hfk]; exact hel
      · exact hinv e he2 fk hfk
    · rw [hcc] at he
      rcases mem_aset_elim he with rfl | he2
      · rcases List.mem_append.mp hfk with h' | h'
        · exact hinv _ (alookup_mem hcc) fk h'
        · simp only [List.mem_singleton] at h'
          rw [h']; exact hel
      · exact hinv e he2 fk hfk
  · rw [if_neg hel] at he
    exact hinv e he fk hfk

theorem build_ksr_spec (cfg : Config) (st : MapState) :
    ∀ e ∈ build_ksr cfg st, ∀ fk ∈ e.2, eligible cfg st fk = true := by
  have main : ∀ (l : List (XY_Coord × ℕ)) (acc : List (XY_Coord × List XY_Coord)),
      (∀ e ∈ acc, ∀ fk ∈ e.2, eligible cfg st fk = true) →
      ∀ e ∈ l.foldl (ksr_step cfg st) acc, ∀ fk ∈ e.2, eligible cfg st fk = true := by
    intro l
    induction l with
    | nil => intro acc h; simpa using h
    | cons kv rl ih => intro acc h; exact ih _ (ksr_step_spec cfg st acc kv h)
  exact main st.density [] (by intro e he; cases he)

theorem foldl_isSome_elim {g : List (XY_Coord × ℕ) → XY_Coord → List (XY_Coord × ℕ)}
    (hg : ∀ (acc : List (XY_Coord × ℕ)) (s k : XY_Coord),
      (alookup (g acc s) k).isSome → k = s ∨ (alookup acc k).isSome) :
    ∀ (fines : List XY_Coord) (acc : List (XY_Coord × ℕ)) (k : XY_Coord),
      (alookup (fines.foldl g acc) k).isSome → (alookup acc k).isSome ∨ k ∈ fines := by
  intro fines
  induction fines with
  | nil => intro acc k h; exact Or.inl h
  | cons s rest ih =>
    intro acc k h
    rw [List.foldl_cons] at h
    rcases ih _ k h with h1 | h1
    · rcases hg acc s k h1 with rfl | h2
      · exact Or.inr (List.mem_cons_self _ _)
      · exact Or.inl h2
    · exact Or.inr (List.mem_cons_of_mem _ h1)

theorem copy_labels_isSome_elim (trees1 : List (XY_Coord × ℕ))
    (e : XY_Coord × List XY_Coord) (acc : List (XY_Coord × ℕ)) (k : XY_Coord)
    (h : (alookup (copy_labels trees1 acc e) k).isSome) :
    (alookup acc k).isSome ∨ k ∈ e.2 := by
  refine foldl_isSome_elim ?_ e.2 acc k h
  intro acc2 s k2 h2
  rcases ht : alookup trees1 e.1 with _ | l
  · rw [ht] at h2
    exact Or.inr h2
  · rw [ht] at h2
    exact alookup_aset_isSome_elim acc2 s k2 l h2

theorem copy_fold_isSome (trees1 : List (XY_Coord × ℕ)) :
    ∀ (ksr : List (XY_Coord × List XY_Coord)) (acc : List (XY_Coord × ℕ)) (k : XY_Coord),
      (alookup (ksr.foldl (copy_labels trees1) acc) k).isSome →
      (alookup acc k).isSome ∨ ∃ e ∈ ksr, k ∈ e.2 := by
  intro ksr
  induction ksr with
  | nil => intro acc k h; exact Or.inl h
  | cons e rks ih =>
    intro acc k h
    rw [List.foldl_cons] at h
    rcases ih _ k h with h1 | ⟨e2, he2, hk2⟩
    · rcases copy_labels_isSome_elim trees1 e acc k h1 with h2 | h2
      · exact Or.inl h2
      · exact Or.inr ⟨e, List.mem_cons_self _ _, h2⟩
    · exact Or.inr ⟨e2, List.mem_cons_of_mem _ he2, hk2⟩

theorem tree_components_eligible (cfg : Config) (st : MapState) (k : XY_Coord)
    (h : (alookup (tree_components cfg st) k).isSome) : eligible cfg st k = true := by
  unfold tree_components at h
  rcases copy_fold_isSome _ (build_ksr cfg st) [] k h with h1 | ⟨e, he, hk⟩
  · simp [alookup] at h1
  · exact build_ksr_spec cfg st e he k hk

theorem update_colours_creates (cfg : Config) :
    ∀ (pts : List Point) (st : MapState) (p : Point),
      p ∈ pts → is_ground cfg st p = false →
      (alookup st.filtered_density (coords cfg p)).isSome →
      (alookup (update_colours cfg st pts).colours (coords cfg p)).isSome := by
  intro pts
  induction pts with
  | nil => intro st p hp; cases hp
  | cons q rest ih =>
    intro st p hp hpg hpfd
    have hstep : update_colours cfg st (q :: rest) =
        update_colours cfg (colours_step cfg st q) rest := rfl
    rw [hstep]
    rcases List.mem_cons.mp hp with rfl | hp2
    · have hcol : (alookup (colours_step cfg st p).colours (coords cfg p)).isSome := by
        unfold colours_step
        rw [if_neg (by simp [hpg])]
        dsimp only
        rcases hfd0 : alookup st.filtered_density (coords cfg p) with _ | f0
        · rw [hfd0] at hpfd; simp at hpfd
        · rcases hcc : alookup st.colours (coords cfg p) with _ | stored
          · simp [alookup_aset_self]
          · simp [alookup_aset_self]
      exact update_colours_colours_isSome cfg rest _ _ hcol
    · refine ih (colours_step cfg st q) p hp2 ?_ ?_
      · show is_groundG cfg (colours_step cfg st q).ground p = false
        rw [colours_step_ground]
        exact hpg
      · exact colours_step_fd_isSome cfg st q _ hpfd

/-- Claim C10 (amended): *provided `groundDepth ≤ sliceDepth`* (true of the
defaults 0.2 and 0.6), every cell labeled by the Tree Segmenter receives a
colour-totals entry in pass 2, so the aggregator's per-cell colour lookup
cannot fail.  (Without that proviso the lookup can fail, see
`colour_lookup_missing_counterexample`.) -/
theorem mid_ground_proj (st : MapState) (G : List (XY_Coord × ℚ)) :
    ({ st with ground := G } : MapState).ground = G := rfl

theorem mid_canopy_proj (st : MapState) (G : List (XY_Coord × ℚ)) :
    ({ st with ground := G } : MapState).canopy = st.canopy := rfl

theorem colours_present_of_labeled (cfg : Config) (pts : List Point) (k : XY_Coord)
    (hcfg : cfg.grounddepth ≤ cfg.slicedepth)
    (hk : (alookup (update_spatial cfg pts).trees k).isSome) :
    (alookup (pipeline cfg pts).colours k).isSome := by
  have htc : (alookup (tree_components cfg
      { ingest cfg pts with
        ground := smooth_ground cfg (ingest cfg pts).ground }) k).isSome := by
    rw [← update_spatial_trees]; exact hk
  have hgr : (update_spatial cfg pts).ground = smooth_ground cfg (ingest cfg pts).ground :=
    update_spatial_ground cfg pts
  generalize hG : smooth_ground cfg (ingest cfg pts).ground = G at htc hgr
  have hel := tree_components_eligible cfg _ k htc
  rw [eligible_iff] at hel
  obtain ⟨c, g, hc, hg, hslice⟩ := hel
  rw [mid_canopy_proj] at hc
  rw [mid_ground_proj] at hg
  by_cases hz : cellZ cfg k pts = []
  · obtain ⟨-, -, hcn, -⟩ := (ingest_goodState cfg pts k).1 hz
    rw [hcn] at hc; cases hc
  · obtain ⟨-, -, -, ⟨c', hc', hcm, -⟩⟩ := (ingest_goodState cfg pts k).2 hz
    have hcceq : c = c' := Option.some.inj (hc.symm.trans hc')
    have hpt : ∃ p ∈ pts, coords cfg p = k ∧ p.z = c := by
      rw [hcceq]
      simp only [cellZ, List.mem_map, List.mem_filter] at hcm
      obtain ⟨p, ⟨hp, hcoord⟩, hz2⟩ := hcm
      exact ⟨p, hp, by simpa using hcoord, hz2⟩
    obtain ⟨p0, hp0, hcoord0, hz0⟩ := hpt
    have hging : is_ground cfg (update_spatial cfg pts) p0 = false := by
      show is_groundG cfg (update_spatial cfg pts).ground p0 = false
      rw [hgr]
      unfold is_groundG
      rw [hcoord0, hg]
      simp only [decide_eq_false_iff_not, not_lt]
      rw [hz0]
      linarith
    have hfd : (alookup (update_spatial cfg pts).filtered_density (coords cfg p0)).isSome := by
      rw [update_spatial_fd, hcoord0]
      obtain ⟨-, hfd2, -, -⟩ := (ingest_goodState cfg pts k).2 hz
      simp [hfd2]
    exact hcoord0 ▸ update_colours_creates cfg pts (update_spatial cfg pts) p0 hp0 hging hfd

/-- Witness for `colours_present_of_labeled` at the worked example. -/
theorem colours_present_of_labeled_witness :
    cfgEx.grounddepth ≤ cfgEx.slicedepth ∧
    (alookup (update_spatial cfgEx ptsTwoCells).trees ⟨0, 0⟩).isSome ∧
    (alookup (pipeline cfgEx ptsTwoCells).colours ⟨0, 0⟩).isSome :=
  ⟨by decide, by decide,
   colours_present_of_labeled cfgEx ptsTwoCells ⟨0, 0⟩ (by decide) (by decide)⟩

/-! ## The sparse-cloud round trip (C4) -/

theorem mem_cellZ_iff (cfg : Config) (k : XY_Coord) (pts : List Point) (z : ℚ) :
    z ∈ cellZ cfg k pts ↔ ∃ p, p ∈ pts ∧ coords cfg p = k ∧ p.z = z := by
  simp only [cellZ, List.mem_map, List.mem_filter, decide_eq_true_eq]
  constructor
  · rintro ⟨p, ⟨hp, hc⟩, hz⟩; exact ⟨p, hp, hc, hz⟩
  · rintro ⟨p, hp, hc, hz⟩; exact ⟨p, ⟨hp, hc⟩, hz⟩

theorem ingest_density_isSome_iff (cfg : Config) (pts : List Point) (k : XY_Coord) :
    (alookup (ingest cfg pts).density k).isSome ↔ cellZ cfg k pts ≠ [] := by
  constructor
  · intro h hnil
    obtain ⟨hd, -, -, -⟩ := (ingest_goodState cfg pts k).1 hnil
    rw [hd] at h; simp at h
  · intro hne
    obtain ⟨hd, -, -, -⟩ := (ingest_goodState cfg pts k).2 hne
    simp [hd]

theorem cellZ_filter_mem {cfg : Config} {k : XY_Coord} {pts : List Point}
    {f : Point → Bool} {z : ℚ} (h : z ∈ cellZ cfg k (pts.filter f)) :
    z ∈ cellZ cfg k pts := by
  rw [mem_cellZ_iff] at h ⊢
  obtain ⟨p, hp, hc, hz⟩ := h
  exact ⟨p, (List.mem_filter.mp hp).1, hc, hz⟩

theorem cellZ_sparse_mem {cfg : Config} {st : MapState} {pts : List Point}
    {k : XY_Coord} {z : ℚ} (h : z ∈ cellZ cfg k (sparse_points cfg st pts)) :
    z ∈ cellZ cfg k pts := by
  rw [sparse_points] at h
  exact cellZ_filter_mem h

/-- Claim C4 (amended): *provided ground smoothing left the ingested ground
map unchanged*, filtering with `not is_ground or is_lowest` and re-ingesting
preserves the set of occupied cells and every cell's ground height; the
canopy height is only preserved up to `≤` (re-ingestion can lose canopy
points lying within `groundDepth` of the ground, see
`sparse_roundtrip_canopy_counterexample`). -/
theorem sparse_roundtrip_ground (cfg : Config) (pts : List Point)
    (hsm : smooth_ground cfg (ingest cfg pts).ground = (ingest cfg pts).ground)
    (k : XY_Coord) :
    ((alookup (ingest cfg (sparse_points cfg (update_spatial cfg pts) pts)).density k).isSome ↔
      (alookup (ingest cfg pts).density k).isSome) ∧
    alookup (ingest cfg (sparse_points cfg (update_spatial cfg pts) pts)).ground k =
      alookup (ingest cfg pts).ground k ∧
    (∀ c' c : ℚ,
      alookup (ingest cfg (sparse_points cfg (update_spatial cfg pts) pts)).canopy k = some c' →
      alookup (ingest cfg pts).canopy k = some c → c' ≤ c) := by
  have hgr : (update_spatial cfg pts).ground = (ingest cfg pts).ground := by
    rw [update_spatial_ground, hsm]
  by_cases hz : cellZ cfg k pts = []
  · -- the cell is unoccupied in the original; it stays unoccupied
    have hznil : cellZ cfg k (sparse_points cfg (update_spatial cfg pts) pts) = [] := by
      rcases hcz : cellZ cfg k (sparse_points cfg (update_spatial cfg pts) pts) with _ | ⟨z, zs⟩
      · rfl
      · have : z ∈ cellZ cfg k pts :=
          cellZ_sparse_mem (by rw [hcz]; exact List.mem_cons_self _ _)
        rw [hz] at this; cases this
    obtain ⟨hd1, hg1, hc1, -⟩ := (ingest_goodState cfg pts k).1 hz
    obtain ⟨hd2, hg2, hc2, -⟩ :=
      (ingest_goodState cfg (sparse_points cfg (update_spatial cfg pts) pts) k).1 hznil
    refine ⟨by simp [hd1, hd2], by rw [hg1, hg2], ?_⟩
    intro c' c hcc _
    rw [hc2] at hcc; cases hcc
  · -- the cell is occupied: the lowest point survives the filter
    obtain ⟨hd1, -, ⟨g, hg, hgm, hglb⟩, ⟨c0, hc0, -, hcub⟩⟩ := (ingest_goodState cfg pts k).2 hz
    obtain ⟨p0, hp0, hcoord0, hz0⟩ := (mem_cellZ_iff cfg k pts g).mp hgm
    have hlow : is_lowest cfg (update_spatial cfg pts) p0 = true := by
      unfold is_lowest
      rw [hgr, hcoord0, hg]
      simp [hz0]
    have hp0s : p0 ∈ sparse_points cfg (update_spatial cfg pts) pts := by
      rw [sparse_points, List.mem_filter]
      exact ⟨hp0, by simp [hlow]⟩
    have hgs : g ∈ cellZ cfg k (sparse_points cfg (update_spatial cfg pts) pts) :=
      (mem_cellZ_iff cfg k _ g).mpr ⟨p0, hp0s, hcoord0, hz0⟩
    have hzs : cellZ cfg k (sparse_points cfg (update_spatial cfg pts) pts) ≠ [] :=
      List.ne_nil_of_mem hgs
    obtain ⟨hd2, -, ⟨g2, hg2, hg2m, hg2lb⟩, ⟨c2, hc2, hc2m, -⟩⟩ :=
      (ingest_goodState cfg (sparse_points cfg (update_spatial cfg pts) pts) k).2 hzs
    have hg2g : g2 = g := le_antisymm (hg2lb g hgs) (hglb g2 (cellZ_sparse_mem hg2m))
    refine ⟨by simp [hd1, hd2], by rw [hg, hg2, hg2g], ?_⟩
    intro c' c hcc' hcc
    have hc'c2 : c' = c2 := Option.some.inj (hcc'.symm.trans hc2)
    have hcc0 : c = c0 := Option.some.inj (hcc.symm.trans hc0)
    rw [hc'c2, hcc0]
    exact hcub c2 (cellZ_sparse_mem hc2m)

/-- Witness for `sparse_roundtrip_ground` at the worked example. -/
theorem sparse_roundtrip_ground_witness :
    alookup (ingest cfgEx
        (sparse_points cfgEx (update_spatial cfgEx ptsTwoCells) ptsTwoCells)).ground ⟨0, 0⟩ =
      alookup (ingest cfgEx ptsTwoCells).ground ⟨0, 0⟩ ∧
    (3 : ℚ) ≤ 3 :=
  ⟨(sparse_roundtrip_ground cfgEx ptsTwoCells (by decide) ⟨0, 0⟩).2.1,
   (sparse_roundtrip_ground cfgEx ptsTwoCells (by decide) ⟨0, 0⟩).2.2 3 3
     (by decide) (by decide)⟩
